import Mathlib

/-!
Verification of the v2ex_mirror fetch/sync engine (`scripts/fetch/run.mjs`).

The JavaScript source is shallowly embedded: JSON object fields that may be
absent are `Option Int`; the JS coercion `Number(x ?? d)` becomes
`Option.getD x d`; `Date.parse` results are carried as `Option Int`
(`none` models an absent or unparsable timestamp string, i.e. `NaN`);
network calls and file writes are oracles passed in as explicit arguments,
so the control flow around them is a pure function of those outcomes.
-/

/-- A topic summary / detail record as it appears in list and detail JSON.
Only the fields the engine inspects are carried; each may be absent. -/
structure Topic where
  id : Option Int
  replies : Option Int
  last_touched : Option Int
  last_modified : Option Int
  created : Option Int
deriving DecidableEq, Repr

/-- The `(replies, last_modified)` snapshot stored in a topic document's
`meta.list_snapshot`; either field may be absent on disk. -/
structure SnapPair where
  replies : Option Int
  last_modified : Option Int
deriving DecidableEq, Repr

/-- The current list snapshot produced by `snapshotFromLists` and handed to
`decideRefreshTopic`; fields may be absent in general. -/
structure ListSnapshot where
  replies : Option Int
  last_modified : Option Int
deriving DecidableEq, Repr

/-- The `meta` block of a persisted topic document.  `fetched_at` holds the
`Date.parse` result of the stored timestamp string: `none` models a missing
or unparsable string (`Date.parse` yielding `NaN`). -/
structure TopicMeta where
  fetched_at : Option Int
  list_snapshot : Option SnapPair
deriving DecidableEq, Repr

/-- A persisted topic document (`data/topics/<id>.json`). -/
structure TopicDoc where
  topic : Option Topic
  meta : Option TopicMeta
deriving DecidableEq, Repr

/-- Embedding of `decideRefreshTopic` (run.mjs lines 210-220). -/
def decideRefreshTopic (existingTopicDoc : Option TopicDoc)
    (listSnapshot : ListSnapshot) (now ttlMs : Int) : Bool :=
  if (existingTopicDoc.bind (·.topic)).isNone then true
  else
    match (existingTopicDoc.bind (·.meta)).bind (·.fetched_at) with
    | none => true
    | some prevFetchedAt =>
      if now - prevFetchedAt > ttlMs then true
      else
        let prev := ((existingTopicDoc.bind (·.meta)).bind (·.list_snapshot)).getD ⟨none, none⟩
        let sameReplies := prev.replies.getD (-1) == listSnapshot.replies.getD (-2)
        let sameTouched := prev.last_modified.getD (-1) == listSnapshot.last_modified.getD (-2)
        !(sameReplies && sameTouched)

/-- The parsed `meta.fetched_at` of an optional topic document. -/
def docFetchedAt (doc : Option TopicDoc) : Option Int :=
  (doc.bind (·.meta)).bind (·.fetched_at)

/-- The stored snapshot's `(replies, last_modified)` pair as numbers, with the
code's sentinel `Number(x ?? -1)` for an absent field. -/
def storedSnapPair (doc : Option TopicDoc) : Int × Int :=
  let prev := ((doc.bind (·.meta)).bind (·.list_snapshot)).getD ⟨none, none⟩
  (prev.replies.getD (-1), prev.last_modified.getD (-1))

/-- The current snapshot's `(replies, last_modified)` pair as numbers, with the
code's sentinel `Number(x ?? -2)` for an absent field. -/
def currentSnapPair (s : ListSnapshot) : Int × Int :=
  (s.replies.getD (-2), s.last_modified.getD (-2))

/-- C1: `decideRefreshTopic` returns true iff the existing document is absent
or lacks a topic, or its `meta.fetched_at` is unparsable, or
`now - fetched_at > ttlMs`, or the stored list snapshot's
`(replies, last_modified)` pair differs numerically from the current one.
In particular it is true whenever the document is absent, and false when
`fetched_at` is within the TTL and both snapshot fields are unchanged. -/
theorem decideRefreshTopic_spec (doc : Option TopicDoc) (snap : ListSnapshot)
    (now ttlMs : Int) :
    decideRefreshTopic doc snap now ttlMs = true ↔
      (doc.bind TopicDoc.topic = none ∨
       docFetchedAt doc = none ∨
       (∃ t, docFetchedAt doc = some t ∧ now - t > ttlMs) ∨
       storedSnapPair doc ≠ currentSnapPair snap) := by
  unfold decideRefreshTopic docFetchedAt storedSnapPair currentSnapPair
  rcases hfa : (doc.bind (·.meta)).bind (·.fetched_at) with _ | t
  · rcases htop : doc.bind (·.topic) with _ | tp <;>
      simp [htop, Option.isNone]
  · rcases htop : doc.bind (·.topic) with _ | tp
    · simp [htop, Option.isNone]
    · simp only [htop, Option.isNone_some, Bool.false_eq_true, if_false]
      by_cases hstale : now - t > ttlMs
      · simp [hstale]
      · simp only [hstale, if_false]
        constructor
        · intro h
          right; right; right
          intro hpair
          have h1 := congrArg Prod.fst hpair
          have h2 := congrArg Prod.snd hpair
          simp at h1 h2
          simp [h1, h2] at h
        · intro h
          rcases h with h | h | ⟨t', ht', hgt⟩ | h

          · exact absurd h (by simp [htop])
          · exact absurd h (by simp)
          · cases ht'
            exact absurd hgt hstale
          · simp only [ne_eq, Prod.mk.injEq, not_and_or] at h
            rcases h with h | h <;> simp [beq_iff_eq, h]

/-- Embedding of `topicFreshness` (run.mjs lines 183-185): the JS fallback
chain `Number(topic?.last_touched ?? topic?.last_modified ?? topic?.created ?? 0)`. -/
def topicFreshness (t : Topic) : Int :=
  ((t.last_touched <|> t.last_modified) <|> t.created).getD 0

/-- Lookup in the insertion-ordered association list modelling the JS `Map`. -/
def mapGet (m : List (Int × Topic)) (k : Int) : Option Topic :=
  (m.find? (fun p => p.1 == k)).map (·.2)

/-- One iteration of the merge loop body of `mergeTopicLists`
(run.mjs lines 168-179).  A JS `Map.set` on an existing key keeps its
position, so the update maps over the list in place. -/
def mergeStep (m : List (Int × Topic)) (item : Topic) : List (Int × Topic) :=
  match item.id with
  | none => m
  | some i =>
    if i ≤ 0 then m
    else
      match mapGet m i with
      | none => m ++ [(i, item)]
      | some prev =>
        if topicFreshness prev ≤ topicFreshness item then
          m.map (fun p => if p.1 = i then (i, item) else p)
        else m

/-- Embedding of `mergeTopicLists` (run.mjs lines 166-181): merge by id keeping
the fresher record, then sort descending by freshness (the JS comparator
`(x, y) => topicFreshness(y) - topicFreshness(x)`). -/
def mergeTopicLists (a b : List Topic) : List Topic :=
  (((a ++ b).foldl mergeStep []).map Prod.snd).mergeSort
    (fun x y => decide (topicFreshness y ≤ topicFreshness x))

/-- The prune predicate inside `updateHotPool` (run.mjs lines 156-160).  The
inline chain `Number(item?.last_touched ?? item?.last_modified ?? item?.created ?? 0)`
is exactly `topicFreshness`; field values parsed from JSON are finite, so the
JS `!Number.isFinite(ts)` escape never fires in the embedding. -/
def pruneKeep (now ttlMs : Int) (item : Topic) : Bool :=
  let ts := topicFreshness item * 1000
  if ts ≤ 0 then true else decide (now - ts ≤ ttlMs)

/-- The TTL prune step of `updateHotPool`. -/
def pruneTopics (now ttlMs : Int) (l : List Topic) : List Topic :=
  l.filter (fun item => pruneKeep now ttlMs item)

/-- Embedding of `updateHotPool` (run.mjs lines 151-164): merge the previous
pool with the current hot list, TTL-prune, then cap at
`Math.max(1, hotPoolLimit)` entries. -/
def updateHotPool (hotPoolTtlDays hotPoolLimit now : Int)
    (prevPool currentHot : List Topic) : List Topic :=
  let merged := mergeTopicLists prevPool currentHot
  let ttlMs := hotPoolTtlDays * 24 * 60 * 60 * 1000
  let pruned := pruneTopics now ttlMs merged
  pruned.take (max 1 hotPoolLimit).toNat

/-- Invariant of the merge map: keys are distinct and every stored record
carries its own key as id. -/
def goodMap (m : List (Int × Topic)) : Prop :=
  (m.map Prod.fst).Nodup ∧ ∀ p ∈ m, p.2.id = some p.1

theorem mergeStep_good (m : List (Int × Topic)) (item : Topic)
    (h : goodMap m) : goodMap (mergeStep m item) := by
  obtain ⟨hnd, hid⟩ := h
  unfold mergeStep
  match hitem : item.id with
  | none => exact ⟨hnd, hid⟩
  | some i =>
    by_cases hle : i ≤ 0
    · simp only [hle, if_true]
      exact ⟨hnd, hid⟩
    · simp only [hle, if_false]
      match hget : mapGet m i with
      | none =>
        have hfind : m.find? (fun p => p.1 == i) = none := by
          rcases hf : m.find? (fun p => p.1 == i) with _ | q
          · exact hf
          · simp [mapGet, hf] at hget
        have hnotin : i ∉ m.map Prod.fst := by
          intro hmem
          obtain ⟨p, hp, hpfst⟩ := List.mem_map.mp hmem
          have hfalse := List.find?_eq_none.mp hfind p hp
          simp [hpfst] at hfalse
        constructor
        · rw [List.map_append]
          simp only [List.map_cons, List.map_nil]
          exact List.Nodup.append hnd (List.nodup_singleton i)
            (by simpa [List.disjoint_singleton] using hnotin)
        · intro p hp
          rcases List.mem_append.mp hp with hp | hp
          · exact hid p hp
          · simp only [List.mem_singleton] at hp
            subst hp
            exact hitem
      | some prev =>
        by_cases hfr : topicFreshness prev ≤ topicFreshness item
        · simp only [hfr, if_true]
          constructor
          · have : (m.map (fun p => if p.1 = i then (i, item) else p)).map Prod.fst
                = m.map Prod.fst := by
              rw [List.map_map]
              apply List.map_congr_left
              intro p _
              by_cases hpi : p.1 = i <;> simp [hpi]
            rw [this]
            exact hnd
          · intro q hq
            obtain ⟨p, hp, hpq⟩ := List.mem_map.mp hq
            by_cases hpi : p.1 = i
            · simp only [hpi, if_true] at hpq
              subst hpq
              exact hitem
            · simp only [hpi, if_false] at hpq
              subst hpq
              exact hid p hp
        · simp only [hfr, if_false]
          exact ⟨hnd, hid⟩

theorem foldl_mergeStep_good (l : List Topic) :
    ∀ m, goodMap m → goodMap (l.foldl mergeStep m) := by
  induction l with
  | nil => intro m h; exact h
  | cons t ts ih =>
    intro m h
    exact ih (mergeStep m t) (mergeStep_good m t h)

theorem goodMap_ids_nodup (m : List (Int × Topic)) (h : goodMap m) :
    ((m.map Prod.snd).map Topic.id).Nodup := by
  obtain ⟨hnd, hid⟩ := h
  have heq : (m.map Prod.snd).map Topic.id = (m.map Prod.fst).map some := by
    rw [List.map_map, List.map_map]
    apply List.map_congr_left
    intro p hp
    exact hid p hp
  rw [heq]
  exact hnd.map (Option.some_injective Int)

/-- C2: the hot-pool update (merge, prune, cap) yields a pool with pairwise
distinct ids whose size is at most `max 1 hotPoolLimit`. -/
theorem updateHotPool_spec (hotPoolTtlDays hotPoolLimit now : Int)
    (prevPool currentHot : List Topic) :
    ((updateHotPool hotPoolTtlDays hotPoolLimit now prevPool currentHot).map
        Topic.id).Nodup ∧
    ((updateHotPool hotPoolTtlDays hotPoolLimit now prevPool currentHot).length : Int)
        ≤ max 1 hotPoolLimit := by
  constructor
  · have hgood := foldl_mergeStep_good (prevPool ++ currentHot) []
      ⟨List.nodup_nil, by intro p hp; cases hp⟩
    have hbase := goodMap_ids_nodup _ hgood
    have hperm := List.mergeSort_perm
      (((prevPool ++ currentHot).foldl mergeStep []).map Prod.snd)
      (fun x y => decide (topicFreshness y ≤ topicFreshness x))
    have hsorted : ((mergeTopicLists prevPool currentHot).map Topic.id).Nodup := by
      unfold mergeTopicLists
      exact ((hperm.map Topic.id).symm).nodup hbase
    have hsub : List.Sublist
        (updateHotPool hotPoolTtlDays hotPoolLimit now prevPool currentHot)
        (mergeTopicLists prevPool currentHot) := by
      simp only [updateHotPool, pruneTopics]
      exact (List.take_sublist _ _).trans (List.filter_sublist _)
    exact hsorted.sublist (hsub.map Topic.id)
  · have hlen : (updateHotPool hotPoolTtlDays hotPoolLimit now prevPool
        currentHot).length ≤ (max 1 hotPoolLimit).toNat := by
      simp only [updateHotPool]
      exact List.length_take_le _ _
    have hpos : (0 : Int) ≤ max 1 hotPoolLimit :=
      le_trans zero_le_one (le_max_left 1 hotPoolLimit)
    calc ((updateHotPool hotPoolTtlDays hotPoolLimit now prevPool
            currentHot).length : Int)
        ≤ (((max 1 hotPoolLimit).toNat : Nat) : Int) := by exact_mod_cast hlen
      _ = max 1 hotPoolLimit := Int.toNat_of_nonneg hpos

/-- C3: after the TTL prune, every surviving entry with a positive freshness
timestamp has age at most the TTL (`now - ts * 1000 ≤ ttlMs`), and every entry
without a usable (positive) timestamp survives unconditionally. -/
theorem pruneTopics_spec (now ttlMs : Int) (l : List Topic) :
    (∀ t ∈ pruneTopics now ttlMs l,
        0 < topicFreshness t * 1000 → now - topicFreshness t * 1000 ≤ ttlMs) ∧
    (∀ t ∈ l, topicFreshness t * 1000 ≤ 0 → t ∈ pruneTopics now ttlMs l) := by
  constructor
  · intro t ht hpos
    have hkeep := List.of_mem_filter ht
    unfold pruneKeep at hkeep
    simp only [not_le.mpr hpos, if_false, decide_eq_true_eq] at hkeep
    exact hkeep
  · intro t ht hts
    apply List.mem_filter.mpr
    refine ⟨ht, ?_⟩
    unfold pruneKeep
    simp [hts]

/-- A record with no activity timestamp (freshness 0). -/
def tNoTimestamp : Topic := ⟨some 1, none, none, none, none⟩

/-- A record with freshness 1 (one second). -/
def tFreshOne : Topic := ⟨some 2, none, some 1, none, none⟩

theorem pruneTopics_spec_witness :
    ((5 : Int) - topicFreshness tFreshOne * 1000 ≤ 10000) ∧
    tNoTimestamp ∈ pruneTopics 5 3 [tNoTimestamp] :=
  ⟨(pruneTopics_spec 5 10000 [tFreshOne]).1 tFreshOne (by decide) (by decide),
   (pruneTopics_spec 5 3 [tNoTimestamp]).2 tNoTimestamp (by decide) (by decide)⟩

/-- The freshness score as the specification words it: the maximum over the
activity timestamps that are present, and 0 when none is present. -/
def specMaxFreshness (t : Topic) : Int :=
  match [t.last_touched, t.last_modified, t.created].filterMap id with
  | [] => 0
  | x :: xs => xs.foldl max x

/-- Counterexample record: `last_touched` present but smaller than
`last_modified`. -/
def tMaxCounter : Topic := ⟨some 1, none, some 5, some 10, none⟩

/-- C4 counterexample: the freshness score the code computes is the first
present field of the fallback chain, not the maximum of the present fields:
on a record with `last_touched = 5` and `last_modified = 10` the code scores
5 while the claimed maximum is 10. -/
theorem topicFreshness_ne_specMax :
    topicFreshness tMaxCounter = 5 ∧ specMaxFreshness tMaxCounter = 10 ∧
    topicFreshness tMaxCounter ≠ specMaxFreshness tMaxCounter := by decide

/-- The amended description: the first present field among `last_touched`,
`last_modified`, `created`, in that priority order, and 0 when none is
present. -/
def firstPresentFreshness (t : Topic) : Int :=
  match t.last_touched, t.last_modified, t.created with
  | some v, _, _ => v
  | none, some v, _ => v
  | none, none, some v => v
  | none, none, none => 0

/-- C4 amended: the freshness score used for merge tie-breaks and TTL pruning
equals the first present field among `last_touched`, `last_modified`,
`created` (descending priority), and 0 when none is present. -/
theorem topicFreshness_first_present (t : Topic) :
    topicFreshness t = firstPresentFreshness t := by
  obtain ⟨i, r, lt, lm, c⟩ := t
  cases lt <;> cases lm <;> cases c <;> rfl

/-- Outcome of a network helper that either returns a value or throws after
exhausting its retries; the string is the thrown error's message. -/
inductive NetResult (α : Type) where
  | ok : α → NetResult α
  | fail : String → NetResult α
deriving DecidableEq, Repr

/-- The per-list entry recorded in `report.lists` by `fetchAndPersistList`. -/
structure ListReportEntry where
  status : String
  count : Nat
  error : Option String
deriving DecidableEq, Repr

/-- Observable effect of one `fetchAndPersistList` call: the list file's
content afterwards, the report entry, and the value returned to `main`. -/
structure ListFetchOutcome where
  fileAfter : Option (List Topic)
  entry : ListReportEntry
  returned : List Topic
deriving DecidableEq, Repr

/-- Embedding of `fetchAndPersistList` (run.mjs lines 187-208).  `onDisk` is
the current content of the list's file (`none` when missing or unreadable, in
which case `readJson` yields the `[]` fallback). -/
def fetchAndPersistList (onDisk : Option (List Topic))
    (fetchResult : NetResult (List Topic)) : ListFetchOutcome :=
  let fallback := onDisk.getD []
  match fetchResult with
  | .ok data => ⟨some data, ⟨"fetched", data.length, none⟩, data⟩
  | .fail e => ⟨onDisk, ⟨"fallback", fallback.length, some e⟩, fallback⟩

/-- C8: when the list fetch fails after exhausting retries, the on-disk
snapshot is unchanged, the report entry has status "fallback", and the
previously persisted content is what the run continues with (the function
returns normally rather than rethrowing, so a list failure is never fatal). -/
theorem fetchAndPersistList_fallback_spec (onDisk : Option (List Topic))
    (fetchResult : NetResult (List Topic)) (e : String)
    (h : fetchResult = NetResult.fail e) :
    (fetchAndPersistList onDisk fetchResult).fileAfter = onDisk ∧
    (fetchAndPersistList onDisk fetchResult).entry.status = "fallback" ∧
    (fetchAndPersistList onDisk fetchResult).returned = onDisk.getD [] := by
  subst h
  exact ⟨rfl, rfl, rfl⟩

theorem fetchAndPersistList_fallback_witness :
    (fetchAndPersistList (some [⟨some 9, some 2, none, none, none⟩])
        (NetResult.fail "HTTP 502")).fileAfter
      = some [⟨some 9, some 2, none, none, none⟩] ∧
    (fetchAndPersistList (some [⟨some 9, some 2, none, none, none⟩])
        (NetResult.fail "HTTP 502")).entry.status = "fallback" ∧
    (fetchAndPersistList (some [⟨some 9, some 2, none, none, none⟩])
        (NetResult.fail "HTTP 502")).returned = [⟨some 9, some 2, none, none, none⟩] :=
  fetchAndPersistList_fallback_spec (some [⟨some 9, some 2, none, none, none⟩])
    (NetResult.fail "HTTP 502") "HTTP 502" rfl

/-- A reply record; its content is never inspected by the sync engine. -/
structure Reply where
  id : Int
deriving DecidableEq, Repr

/-- The `meta` block of a replies document as read back from disk; the
engine only inspects `meta.reply_count`, and anything may be absent. -/
structure StoredRepliesMeta where
  reply_count : Option Int
deriving DecidableEq, Repr

/-- A replies document as read back from disk (`data/replies/<id>.json`). -/
structure StoredRepliesDoc where
  meta : Option StoredRepliesMeta
deriving DecidableEq, Repr

/-- The `meta` block the engine writes for a replies document
(run.mjs lines 114-121).  The JS field `partial` is named `partialFlag`
here because `partial` is reserved in Lean. -/
structure RepliesMeta where
  reply_count : Int
  total_count : Int
  fetched_count : Int
  partialFlag : Bool
deriving DecidableEq, Repr

/-- A replies document as written by the engine (run.mjs lines 112-122). -/
structure RepliesDoc where
  replies : List Reply
  meta : RepliesMeta
deriving DecidableEq, Repr

/-- Construction of the written replies document (run.mjs lines 110-122):
`totalCount = Number(topic.replies ?? replies.length)`, `fetchedCount` is the
array length, and `partial = fetchedCount < totalCount`. -/
def mkRepliesDoc (topic : Topic) (replies : List Reply) : RepliesDoc :=
  let totalCount : Int := topic.replies.getD replies.length
  let fetchedCount : Int := replies.length
  ⟨replies, ⟨totalCount, totalCount, fetchedCount, decide (fetchedCount < totalCount)⟩⟩

/-- The code's `Number(existingRepliesDoc?.meta?.reply_count ?? -1)`. -/
def storedReplyCount (rd : Option StoredRepliesDoc) : Int :=
  ((rd.bind (·.meta)).bind (·.reply_count)).getD (-1)

/-- The code's `Number(topic?.replies ?? -2)`. -/
def topicReplyCount (t : Option Topic) : Int :=
  (t.bind (·.replies)).getD (-2)

/-- The failures a single candidate's processing can throw inside the
per-item try block (run.mjs lines 81-131). -/
inductive ItemError where
  | fetchTopicFailed (msg : String)
  | emptyTopicPayload
  | persistTopicFailed
  | fetchRepliesFailed (msg : String)
  | persistRepliesFailed
deriving DecidableEq, Repr

/-- All run-time inputs one candidate's loop iteration depends on: the two
documents read from disk, the list snapshot, and oracles for the network
calls and file writes it may perform. -/
structure PerItemInputs where
  existingTopicDoc : Option TopicDoc
  existingRepliesDoc : Option StoredRepliesDoc
  listSnapshot : ListSnapshot
  fetchTopicResult : NetResult (Option Topic)
  fetchRepliesResult : NetResult (List Reply)
  writeTopicOk : Bool
  writeRepliesOk : Bool
deriving DecidableEq, Repr

/-- Observable outcome of one candidate's loop iteration: which report
counters were bumped, whether the replies endpoint was called, what replies
document was written, and the error caught by the per-item catch (if any). -/
structure PerItemOutcome where
  refreshedInc : Bool
  skippedInc : Bool
  wroteTopic : Bool
  fetchedReplies : Bool
  wroteReplies : Option RepliesDoc
  failure : Option ItemError
deriving DecidableEq, Repr

/-- The replies half of the loop body (run.mjs lines 103-124), entered with
the topic obtained by the first half.  `srt` is `shouldRefreshTopic`; the
counter increments decided by the first half pass through unchanged, since in
the code they have already been applied when this point is reached. -/
def repliesStage (srt : Bool) (topic : Option Topic) (inp : PerItemInputs)
    (refreshedInc skippedInc wroteTopic : Bool) : PerItemOutcome :=
  let srr := srt || inp.existingRepliesDoc.isNone ||
      !(storedReplyCount inp.existingRepliesDoc == topicReplyCount topic)
  match topic with
  | none => ⟨refreshedInc, skippedInc, wroteTopic, false, none, none⟩
  | some t =>
    if srr then
      match inp.fetchRepliesResult with
      | .fail msg =>
          ⟨refreshedInc, skippedInc, wroteTopic, true, none,
           some (.fetchRepliesFailed msg)⟩
      | .ok replies =>
          if inp.writeRepliesOk then
            ⟨refreshedInc, skippedInc, wroteTopic, true,
             some (mkRepliesDoc t replies), none⟩
          else
            ⟨refreshedInc, skippedInc, wroteTopic, true, none,
             some .persistRepliesFailed⟩
    else ⟨refreshedInc, skippedInc, wroteTopic, false, none, none⟩

/-- Embedding of one iteration of the candidate loop (run.mjs lines 67-131):
decide the topic refresh, fetch/persist the topic when required (throwing on
an empty payload), then decide and perform the replies refresh; any thrown
error is caught and recorded as the outcome's `failure`. -/
def processTopicItem (now ttlMs : Int) (inp : PerItemInputs) : PerItemOutcome :=
  if decideRefreshTopic inp.existingTopicDoc inp.listSnapshot now ttlMs then
    match inp.fetchTopicResult with
    | .fail msg => ⟨false, false, false, false, none, some (.fetchTopicFailed msg)⟩
    | .ok none => ⟨false, false, false, false, none, some .emptyTopicPayload⟩
    | .ok (some t) =>
      if inp.writeTopicOk then repliesStage true (some t) inp true false true
      else ⟨false, false, false, false, none, some .persistTopicFailed⟩
  else
    repliesStage false (inp.existingTopicDoc.bind (·.topic)) inp false true false

/-- The topic record in scope at the replies decision: the freshly fetched
one when the item refreshed, otherwise the one from the existing document. -/
def effectiveTopic (now ttlMs : Int) (inp : PerItemInputs) : Option Topic :=
  if decideRefreshTopic inp.existingTopicDoc inp.listSnapshot now ttlMs then
    match inp.fetchTopicResult with
    | .ok t => t
    | .fail _ => none
  else inp.existingTopicDoc.bind (·.topic)

theorem repliesStage_wroteReplies_shape (srt : Bool) (topic : Option Topic)
    (inp : PerItemInputs) (r s w : Bool) (rd : RepliesDoc)
    (h : (repliesStage srt topic inp r s w).wroteReplies = some rd) :
    ∃ t rs, rd = mkRepliesDoc t rs := by
  unfold repliesStage at h
  rcases topic with _ | t
  · simp at h
  · simp only at h
    split at h
    · split at h
      · simp at h
      · split at h
        · simp only [Option.some.injEq] at h
          exact ⟨t, _, h.symm⟩
        · simp at h
    · simp at h

theorem processTopicItem_wroteReplies_shape (now ttlMs : Int)
    (inp : PerItemInputs) (rd : RepliesDoc)
    (h : (processTopicItem now ttlMs inp).wroteReplies = some rd) :
    ∃ t rs, rd = mkRepliesDoc t rs := by
  unfold processTopicItem at h
  by_cases hsrt : decideRefreshTopic inp.existingTopicDoc inp.listSnapshot now ttlMs = true
  · rw [if_pos hsrt] at h
    rcases hft : inp.fetchTopicResult with t | msg
    · rcases t with _ | t
      · rw [hft] at h
        simp at h
      · rw [hft] at h
        dsimp only at h
        by_cases hw : inp.writeTopicOk = true
        · rw [if_pos hw] at h
          exact repliesStage_wroteReplies_shape _ _ _ _ _ _ _ h
        · rw [if_neg hw] at h
          simp at h
    · rw [hft] at h
      simp at h
  · rw [if_neg hsrt] at h
    exact repliesStage_wroteReplies_shape _ _ _ _ _ _ _ h

/-- C10: every replies document the loop writes has `partial` true exactly
when `fetched_count < total_count`; in particular counts 0/0 give false and
5/10 give true. -/
theorem repliesDoc_partialFlag_spec (now ttlMs : Int) (inp : PerItemInputs)
    (rd : RepliesDoc)
    (h : (processTopicItem now ttlMs inp).wroteReplies = some rd) :
    (rd.meta.partialFlag = true ↔ rd.meta.fetched_count < rd.meta.total_count) ∧
    (rd.meta.fetched_count = 0 → rd.meta.total_count = 0 →
        rd.meta.partialFlag = false) ∧
    (rd.meta.fetched_count = 5 → rd.meta.total_count = 10 →
        rd.meta.partialFlag = true) := by
  obtain ⟨t, rs, rfl⟩ := processTopicItem_wroteReplies_shape now ttlMs inp rd h
  refine ⟨?_, ?_, ?_⟩
  · simp [mkRepliesDoc]
  · intro h0 h1
    simp only [mkRepliesDoc] at h0 h1 ⊢
    simp only [decide_eq_false_iff_not]
    omega
  · intro h0 h1
    simp only [mkRepliesDoc] at h0 h1 ⊢
    simp only [decide_eq_true_eq]
    omega

/-- Concrete inputs of the C10 witness: no documents on disk, a topic with 10
replies, and a replies fetch returning 5 items. -/
def inpPartialW : PerItemInputs :=
  { existingTopicDoc := none,
    existingRepliesDoc := none,
    listSnapshot := ⟨some 10, some 0⟩,
    fetchTopicResult := NetResult.ok (some ⟨some 7, some 10, none, none, none⟩),
    fetchRepliesResult := NetResult.ok [⟨1⟩, ⟨2⟩, ⟨3⟩, ⟨4⟩, ⟨5⟩],
    writeTopicOk := true,
    writeRepliesOk := true }

theorem repliesDoc_partialFlag_witness :
    ((mkRepliesDoc ⟨some 7, some 10, none, none, none⟩
        [⟨1⟩, ⟨2⟩, ⟨3⟩, ⟨4⟩, ⟨5⟩]).meta.partialFlag = true ↔
      (mkRepliesDoc ⟨some 7, some 10, none, none, none⟩
        [⟨1⟩, ⟨2⟩, ⟨3⟩, ⟨4⟩, ⟨5⟩]).meta.fetched_count <
      (mkRepliesDoc ⟨some 7, some 10, none, none, none⟩
        [⟨1⟩, ⟨2⟩, ⟨3⟩, ⟨4⟩, ⟨5⟩]).meta.total_count) ∧
    ((mkRepliesDoc ⟨some 7, some 10, none, none, none⟩
        [⟨1⟩, ⟨2⟩, ⟨3⟩, ⟨4⟩, ⟨5⟩]).meta.fetched_count = 0 →
      (mkRepliesDoc ⟨some 7, some 10, none, none, none⟩
        [⟨1⟩, ⟨2⟩, ⟨3⟩, ⟨4⟩, ⟨5⟩]).meta.total_count = 0 →
      (mkRepliesDoc ⟨some 7, some 10, none, none, none⟩
        [⟨1⟩, ⟨2⟩, ⟨3⟩, ⟨4⟩, ⟨5⟩]).meta.partialFlag = false) ∧
    ((mkRepliesDoc ⟨some 7, some 10, none, none, none⟩
        [⟨1⟩, ⟨2⟩, ⟨3⟩, ⟨4⟩, ⟨5⟩]).meta.fetched_count = 5 →
      (mkRepliesDoc ⟨some 7, some 10, none, none, none⟩
        [⟨1⟩, ⟨2⟩, ⟨3⟩, ⟨4⟩, ⟨5⟩]).meta.total_count = 10 →
      (mkRepliesDoc ⟨some 7, some 10, none, none, none⟩
        [⟨1⟩, ⟨2⟩, ⟨3⟩, ⟨4⟩, ⟨5⟩]).meta.partialFlag = true) :=
  repliesDoc_partialFlag_spec 0 0 inpPartialW
    (mkRepliesDoc ⟨some 7, some 10, none, none, none⟩ [⟨1⟩, ⟨2⟩, ⟨3⟩, ⟨4⟩, ⟨5⟩])
    (by rfl)

theorem decideRefreshTopic_false_topic (doc : Option TopicDoc)
    (snap : ListSnapshot) (now ttlMs : Int)
    (h : decideRefreshTopic doc snap now ttlMs = false) :
    ∃ t, doc.bind (fun d => d.topic) = some t := by
  unfold decideRefreshTopic at h
  rcases htop : doc.bind (fun d => d.topic) with _ | t
  · rw [htop] at h
    simp at h
  · exact ⟨t, rfl⟩

theorem repliesStage_fetchedReplies (srt : Bool) (t : Topic)
    (inp : PerItemInputs) (r s w : Bool) :
    (repliesStage srt (some t) inp r s w).fetchedReplies =
      (srt || inp.existingRepliesDoc.isNone ||
        !(storedReplyCount inp.existingRepliesDoc == topicReplyCount (some t))) := by
  unfold repliesStage
  by_cases hsrr : (srt || inp.existingRepliesDoc.isNone ||
      !(storedReplyCount inp.existingRepliesDoc == topicReplyCount (some t))) = true
  · rcases hfr : inp.fetchRepliesResult with replies | msg <;>
      by_cases hwr : inp.writeRepliesOk = true <;>
      simp [hfr, hwr, hsrr]
  · have h0 := Bool.eq_false_iff.mpr hsrr
    simp [h0]

/-- C5: under the guarantee that the topic stage did not throw (whenever a
topic refresh was decided, the fetch returned a payload and the write
succeeded), the replies endpoint is called exactly when the item refreshed,
or no replies document exists, or the remembered reply count differs
numerically from the current topic's reply count. -/
theorem shouldRefreshReplies_spec (now ttlMs : Int) (inp : PerItemInputs)
    (hok : decideRefreshTopic inp.existingTopicDoc inp.listSnapshot now ttlMs = true →
      (∃ t, inp.fetchTopicResult = NetResult.ok (some t)) ∧ inp.writeTopicOk = true) :
    (processTopicItem now ttlMs inp).fetchedReplies = true ↔
      (decideRefreshTopic inp.existingTopicDoc inp.listSnapshot now ttlMs = true ∨
       inp.existingRepliesDoc = none ∨
       storedReplyCount inp.existingRepliesDoc ≠
         topicReplyCount (effectiveTopic now ttlMs inp)) := by
  by_cases hsrt : decideRefreshTopic inp.existingTopicDoc inp.listSnapshot now ttlMs = true
  · obtain ⟨⟨t, hft⟩, hw⟩ := hok hsrt
    have hfr : (processTopicItem now ttlMs inp).fetchedReplies = true := by
      unfold processTopicItem
      rw [if_pos hsrt, hft]
      dsimp only
      rw [if_pos hw, repliesStage_fetchedReplies]
      simp
    simp [hfr, hsrt]
  · have hsf : decideRefreshTopic inp.existingTopicDoc inp.listSnapshot now ttlMs = false :=
      Bool.eq_false_iff.mpr hsrt
    obtain ⟨tp, htp⟩ := decideRefreshTopic_false_topic _ _ _ _ hsf
    unfold processTopicItem effectiveTopic
    rw [if_neg hsrt, if_neg hsrt, htp, repliesStage_fetchedReplies]
    simp [hsf, Option.isNone_iff_eq_none]

/-- Concrete inputs of the C5 witness: nothing on disk yet, and a topic
fetch that succeeds. -/
def inpRepliesW : PerItemInputs :=
  { existingTopicDoc := none,
    existingRepliesDoc := none,
    listSnapshot := ⟨some 1, some 2⟩,
    fetchTopicResult := NetResult.ok (some ⟨some 3, some 1, none, none, none⟩),
    fetchRepliesResult := NetResult.ok [⟨1⟩],
    writeTopicOk := true,
    writeRepliesOk := true }

theorem shouldRefreshReplies_witness :
    (processTopicItem 0 0 inpRepliesW).fetchedReplies = true ↔
      (decideRefreshTopic inpRepliesW.existingTopicDoc inpRepliesW.listSnapshot 0 0 = true ∨
       inpRepliesW.existingRepliesDoc = none ∨
       storedReplyCount inpRepliesW.existingRepliesDoc ≠
         topicReplyCount (effectiveTopic 0 0 inpRepliesW)) :=
  shouldRefreshReplies_spec 0 0 inpRepliesW
    (fun _ => ⟨⟨⟨some 3, some 1, none, none, none⟩, rfl⟩, rfl⟩)

/-- The `report.topics` counters and failure list built by the candidate
loop (run.mjs lines 47-52, 98-100, 126-129). -/
structure TopicsReport where
  refreshed : Nat
  skipped : Nat
  failed : List (Int × ItemError)
deriving DecidableEq, Repr

/-- How one candidate's outcome updates the run report: bump the counters it
bumped, and append `{topic_id, error}` when its processing threw. -/
def applyOutcome (rep : TopicsReport) (topicId : Int) (o : PerItemOutcome) :
    TopicsReport :=
  { refreshed := rep.refreshed + (if o.refreshedInc then 1 else 0),
    skipped := rep.skipped + (if o.skippedInc then 1 else 0),
    failed := rep.failed ++ (match o.failure with
      | some e => [(topicId, e)]
      | none => []) }

/-- The candidate loop of `main` (run.mjs lines 67-132): every candidate id
is processed in order and the report accumulates the outcomes; `env` maps
each id to the run-time inputs its iteration sees. -/
def runCandidates (now ttlMs : Int) (candidates : List Int)
    (env : Int → PerItemInputs) : TopicsReport :=
  candidates.foldl
    (fun rep tid => applyOutcome rep tid (processTopicItem now ttlMs (env tid)))
    ⟨0, 0, []⟩

theorem runCandidates_go (now ttlMs : Int) (env : Int → PerItemInputs) :
    ∀ (cs : List Int) (rep : TopicsReport),
    cs.foldl
      (fun rep tid => applyOutcome rep tid (processTopicItem now ttlMs (env tid)))
      rep =
    ⟨rep.refreshed + cs.countP (fun tid => (processTopicItem now ttlMs (env tid)).refreshedInc),
     rep.skipped + cs.countP (fun tid => (processTopicItem now ttlMs (env tid)).skippedInc),
     rep.failed ++ cs.filterMap (fun tid =>
       ((processTopicItem now ttlMs (env tid)).failure).map (fun e => (tid, e)))⟩ := by
  intro cs
  induction cs with
  | nil => intro rep; simp
  | cons c cs ih =>
    intro rep
    rw [List.foldl_cons, ih]
    rcases hf : (processTopicItem now ttlMs (env c)).failure with _ | e <;>
      simp [applyOutcome, hf, List.countP_cons] <;>
      constructor <;> try omega

/-- C9: partial-failure isolation of the candidate loop.  The failure list is
exactly the `(topic_id, error)` of the candidates whose processing threw, in
candidate order, and the refreshed/skipped counters count over all
candidates — so a failure is always recorded and never stops later
candidates from being processed. -/
theorem perItem_isolation (now ttlMs : Int) (candidates : List Int)
    (env : Int → PerItemInputs) :
    (runCandidates now ttlMs candidates env).failed =
      candidates.filterMap (fun tid =>
        ((processTopicItem now ttlMs (env tid)).failure).map (fun e => (tid, e))) ∧
    (runCandidates now ttlMs candidates env).refreshed =
      candidates.countP (fun tid => (processTopicItem now ttlMs (env tid)).refreshedInc) ∧
    (runCandidates now ttlMs candidates env).skipped =
      candidates.countP (fun tid => (processTopicItem now ttlMs (env tid)).skippedInc) := by
  unfold runCandidates
  rw [runCandidates_go]
  simp

/-- Embedding of `waitRateLimit` (run.mjs lines 290-296) in ideal time: given
the caller's clock and the shared `nextAllowedAt`, return the instant the
request is issued (after sleeping `max 0 (nextAllowed - clock)`) and the new
`nextAllowedAt`, which the code sets to the post-sleep now plus
`intervalMs`. -/
def waitRateLimit (intervalMs clock nextAllowed : Int) : Int × Int :=
  let wait := max 0 (nextAllowed - clock)
  (clock + wait, clock + wait + intervalMs)

/-- The backoff slept after the 0-based failed attempt `i`
(run.mjs line 283): `intervalMs * (i + 1) * 2`. -/
def backoffAt (intervalMs : Int) (i : Nat) : Int :=
  intervalMs * ((i : Int) + 1) * 2

/-- Full observable trace of one `fetchJsonWithRetry` call.  `result` is
`Except.error lastErr` when the loop exhausts its attempts (`none` only when
`retries = 0`, modelling the fresh `Request failed` error); `issueTimes` are
the instants requests were issued after the rate gate; `backoffSleeps` are
the backoff durations slept after each failed attempt, in order. -/
structure RetryTrace (α : Type) where
  result : Except (Option String) α
  attemptsMade : Nat
  issueTimes : List Int
  backoffSleeps : List Int
  clock : Int
  nextAllowed : Int
deriving Repr

/-- The retry loop of `fetchJsonWithRetry` (run.mjs lines 266-288), from
attempt index `i` with `rem` loop iterations left.  `att j` is the outcome of
the j-th attempt (response body, or the message of the error the attempt
threw); `dur j` is the time the attempt itself took. -/
def retryGo {α : Type} (att : Nat → NetResult α) (dur : Nat → Int)
    (intervalMs : Int) :
    Nat → Nat → Option String → List Int → List Int → Int → Int → RetryTrace α
  | i, 0, lastErr, issues, sleeps, clock, na =>
      ⟨Except.error lastErr, i, issues, sleeps, clock, na⟩
  | i, rem + 1, _, issues, sleeps, clock, na =>
      let g := waitRateLimit intervalMs clock na
      match att i with
      | NetResult.ok a =>
          ⟨Except.ok a, i + 1, issues ++ [g.1], sleeps, g.1 + dur i, g.2⟩
      | NetResult.fail e =>
          retryGo att dur intervalMs (i + 1) rem (some e) (issues ++ [g.1])
            (sleeps ++ [backoffAt intervalMs i])
            (g.1 + dur i + backoffAt intervalMs i) g.2

/-- Embedding of `fetchJsonWithRetry` (run.mjs lines 266-288): run up to
`retries` attempts starting from gate state `na` at time `clock`. -/
def fetchJsonWithRetry {α : Type} (att : Nat → NetResult α) (dur : Nat → Int)
    (intervalMs : Int) (retries : Nat) (clock na : Int) : RetryTrace α :=
  retryGo att dur intervalMs 0 retries none [] [] clock na

theorem retryGo_attempts_le {α : Type} (att : Nat → NetResult α)
    (dur : Nat → Int) (intervalMs : Int) :
    ∀ (rem i : Nat) (lastErr : Option String) (issues sleeps : List Int)
      (clock na : Int),
      (retryGo att dur intervalMs i rem lastErr issues sleeps clock na).attemptsMade
        ≤ i + rem := by
  intro rem
  induction rem with
  | zero =>
    intro i lastErr issues sleeps clock na
    simp [retryGo]
  | succ rem ih =>
    intro i lastErr issues sleeps clock na
    rcases hA : att i with a | e
    · simp only [retryGo, hA]
      omega
    · simp only [retryGo, hA]
      exact le_trans (ih (i + 1) _ _ _ _ _) (by omega)

theorem retryGo_success {α : Type} (att : Nat → NetResult α) (dur : Nat → Int)
    (intervalMs : Int) :
    ∀ (rem i : Nat) (lastErr : Option String) (issues sleeps : List Int)
      (clock na : Int) (k : Nat) (a : α),
      i ≤ k → k < i + rem →
      (∀ j, i ≤ j → j < k → ∃ e, att j = NetResult.fail e) →
      att k = NetResult.ok a →
      (retryGo att dur intervalMs i rem lastErr issues sleeps clock na).result
          = Except.ok a ∧
      (retryGo att dur intervalMs i rem lastErr issues sleeps clock na).attemptsMade
          = k + 1 ∧
      (retryGo att dur intervalMs i rem lastErr issues sleeps clock na).backoffSleeps
          = sleeps ++ (List.range' i (k - i)).map (backoffAt intervalMs) := by
  intro rem
  induction rem with
  | zero =>
    intro i lastErr issues sleeps clock na k a hik hk hfail hok
    omega
  | succ rem ih =>
    intro i lastErr issues sleeps clock na k a hik hk hfail hok
    by_cases hik' : i = k
    · subst hik'
      simp [retryGo, hok, Nat.sub_self]
    · have hlt : i < k := lt_of_le_of_ne hik hik'
      obtain ⟨e, he⟩ := hfail i (le_refl i) hlt
      have hrec := ih (i + 1) (some e)
        (issues ++ [(waitRateLimit intervalMs clock na).1])
        (sleeps ++ [backoffAt intervalMs i])
        ((waitRateLimit intervalMs clock na).1 + dur i + backoffAt intervalMs i)
        (waitRateLimit intervalMs clock na).2 k a
        (by omega) (by omega)
        (fun j hj1 hj2 => hfail j (by omega) hj2) hok
      have hrange : List.range' i (k - i) =
          i :: List.range' (i + 1) (k - (i + 1)) := by
        have : k - i = (k - (i + 1)) + 1 := by omega
        rw [this, List.range'_succ]
      simp only [retryGo, he]
      refine ⟨hrec.1, hrec.2.1, ?_⟩
      rw [hrec.2.2, hrange]
      simp [backoffAt]

theorem retryGo_allfail {α : Type} (att : Nat → NetResult α) (dur : Nat → Int)
    (intervalMs : Int) :
    ∀ (rem i : Nat) (lastErr : Option String) (issues sleeps : List Int)
      (clock na : Int),
      (∀ j, i ≤ j → j < i + rem → ∃ e, att j = NetResult.fail e) →
      (retryGo att dur intervalMs i rem lastErr issues sleeps clock na).attemptsMade
          = i + rem ∧
      (retryGo att dur intervalMs i rem lastErr issues sleeps clock na).backoffSleeps
          = sleeps ++ (List.range' i rem).map (backoffAt intervalMs) ∧
      (rem = 0 →
        (retryGo att dur intervalMs i rem lastErr issues sleeps clock na).result
          = Except.error lastErr) ∧
      (∀ e, 0 < rem → att (i + rem - 1) = NetResult.fail e →
        (retryGo att dur intervalMs i rem lastErr issues sleeps clock na).result
          = Except.error (some e)) := by
  intro rem
  induction rem with
  | zero =>
    intro i lastErr issues sleeps clock na hfail
    refine ⟨by simp [retryGo], by simp [retryGo], fun _ => by simp [retryGo], ?_⟩
    intro e h0
    omega
  | succ rem ih =>
    intro i lastErr issues sleeps clock na hfail
    obtain ⟨e0, he0⟩ := hfail i (le_refl i) (by omega)
    have hrec := ih (i + 1) (some e0)
      (issues ++ [(waitRateLimit intervalMs clock na).1])
      (sleeps ++ [backoffAt intervalMs i])
      ((waitRateLimit intervalMs clock na).1 + dur i + backoffAt intervalMs i)
      (waitRateLimit intervalMs clock na).2
      (fun j hj1 hj2 => hfail j (by omega) (by omega))
    have hrange : List.range' i (rem + 1) =
        i :: List.range' (i + 1) rem := List.range'_succ i rem 1
    refine ⟨?_, ?_, ?_, ?_⟩
    · simp only [retryGo, he0]
      rw [hrec.1]
      omega
    · simp only [retryGo, he0]
      rw [hrec.2.1, hrange]
      simp
    · intro h0
      omega
    · intro e hpos he
      simp only [retryGo, he0]
      rcases Nat.eq_zero_or_pos rem with hrem | hrem
      · subst hrem
        have : i + 1 - 1 = i := by omega
        rw [this] at he
        rw [he0] at he
        cases he
        exact hrec.2.2.1 rfl
      · apply hrec.2.2.2 e hrem
        have : i + 1 + rem - 1 = i + (rem + 1) - 1 := by omega
        rw [this]
        exact he

theorem waitRateLimit_issue_ge (intervalMs clock na : Int) :
    na ≤ (waitRateLimit intervalMs clock na).1 := by
  show na ≤ clock + max 0 (na - clock)
  have : na - clock ≤ max 0 (na - clock) := le_max_right 0 (na - clock)
  omega

theorem waitRateLimit_next (intervalMs clock na : Int) :
    (waitRateLimit intervalMs clock na).2
      = (waitRateLimit intervalMs clock na).1 + intervalMs := rfl

theorem retryGo_chain {α : Type} (att : Nat → NetResult α) (dur : Nat → Int)
    (intervalMs : Int) :
    ∀ (rem i : Nat) (lastErr : Option String) (issues sleeps : List Int)
      (clock na : Int),
      List.Chain' (fun a b => a + intervalMs ≤ b) issues →
      (∀ last, issues.getLast? = some last → last + intervalMs ≤ na) →
      List.Chain' (fun a b => a + intervalMs ≤ b)
        (retryGo att dur intervalMs i rem lastErr issues sleeps clock na).issueTimes := by
  intro rem
  induction rem with
  | zero =>
    intro i lastErr issues sleeps clock na hchain hlast
    simpa [retryGo] using hchain
  | succ rem ih =>
    intro i lastErr issues sleeps clock na hchain hlast
    have hchain' : List.Chain' (fun a b => a + intervalMs ≤ b)
        (issues ++ [(waitRateLimit intervalMs clock na).1]) := by
      apply List.chain'_append.mpr
      refine ⟨hchain, List.chain'_singleton _, ?_⟩
      intro x hx y hy
      simp only [List.head?_cons, Option.mem_def, Option.some.injEq] at hy
      subst hy
      exact le_trans (hlast x hx) (waitRateLimit_issue_ge intervalMs clock na)
    have hlast' : ∀ last,
        (issues ++ [(waitRateLimit intervalMs clock na).1]).getLast? = some last →
        last + intervalMs ≤ (waitRateLimit intervalMs clock na).2 := by
      intro last hl
      rw [List.getLast?_concat] at hl
      cases hl
      rw [waitRateLimit_next]
    rcases hA : att i with a | e
    · simpa [retryGo, hA] using hchain'
    · simp only [retryGo, hA]
      exact ih (i + 1) (some e) _ _ _ _ hchain' hlast'

theorem retryGo_issue_count {α : Type} (att : Nat → NetResult α)
    (dur : Nat → Int) (intervalMs : Int) :
    ∀ (rem i : Nat) (lastErr : Option String) (issues sleeps : List Int)
      (clock na : Int),
      (retryGo att dur intervalMs i rem lastErr issues sleeps clock na).issueTimes.length + i
        = issues.length +
          (retryGo att dur intervalMs i rem lastErr issues sleeps clock na).attemptsMade := by
  intro rem
  induction rem with
  | zero =>
    intro i lastErr issues sleeps clock na
    simp [retryGo]
  | succ rem ih =>
    intro i lastErr issues sleeps clock na
    rcases hA : att i with a | e
    · simp [retryGo, hA]
      omega
    · simp only [retryGo, hA]
      have := ih (i + 1) (some e)
        (issues ++ [(waitRateLimit intervalMs clock na).1])
        (sleeps ++ [backoffAt intervalMs i])
        ((waitRateLimit intervalMs clock na).1 + dur i + backoffAt intervalMs i)
        (waitRateLimit intervalMs clock na).2
      simp only [List.length_append, List.length_cons, List.length_nil] at this
      omega

theorem retryGo_issues_decomp {α : Type} (att : Nat → NetResult α)
    (dur : Nat → Int) (intervalMs : Int) :
    ∀ (rem i : Nat) (lastErr : Option String) (issues sleeps : List Int)
      (clock na : Int),
      ∃ tail,
        (retryGo att dur intervalMs i rem lastErr issues sleeps clock na).issueTimes
          = issues ++ tail ∧
        (0 < rem → tail.head? = some (waitRateLimit intervalMs clock na).1) ∧
        (rem = 0 → tail = []) := by
  intro rem
  induction rem with
  | zero =>
    intro i lastErr issues sleeps clock na
    exact ⟨[], by simp [retryGo], by omega, fun _ => rfl⟩
  | succ rem ih =>
    intro i lastErr issues sleeps clock na
    rcases hA : att i with a | e
    · refine ⟨[(waitRateLimit intervalMs clock na).1], ?_, ?_, ?_⟩
      · simp [retryGo, hA]
      · intro _; rfl
      · omega
    · obtain ⟨tail, htail, hhead, hzero⟩ := ih (i + 1) (some e)
        (issues ++ [(waitRateLimit intervalMs clock na).1])
        (sleeps ++ [backoffAt intervalMs i])
        ((waitRateLimit intervalMs clock na).1 + dur i + backoffAt intervalMs i)
        (waitRateLimit intervalMs clock na).2
      refine ⟨(waitRateLimit intervalMs clock na).1 :: tail, ?_, ?_, ?_⟩
      · simp only [retryGo, hA]
        rw [htail]
        simp
      · intro _; rfl
      · omega

/-- C6: `fetchJsonWithRetry` makes at most `retries` attempts; when the first
success is attempt `k+1` (1-based) it returns that attempt's parsed body
having slept `intervalMs * n * 2` after each failed attempt `n = 1..k`; and
when every attempt fails it throws the last attempt's error after `retries`
attempts, having slept the backoff after each of them. -/
theorem fetchJsonWithRetry_spec {α : Type} (att : Nat → NetResult α)
    (dur : Nat → Int) (intervalMs : Int) (retries : Nat) (clock na : Int) :
    (fetchJsonWithRetry att dur intervalMs retries clock na).attemptsMade ≤ retries ∧
    (∀ k a, k < retries → att k = NetResult.ok a →
      (∀ j, j < k → ∃ e, att j = NetResult.fail e) →
      (fetchJsonWithRetry att dur intervalMs retries clock na).result = Except.ok a ∧
      (fetchJsonWithRetry att dur intervalMs retries clock na).attemptsMade = k + 1 ∧
      (fetchJsonWithRetry att dur intervalMs retries clock na).backoffSleeps =
        (List.range k).map (fun (n : Nat) => intervalMs * ((n : Int) + 1) * 2)) ∧
    ((∀ j, j < retries → ∃ e, att j = NetResult.fail e) → 0 < retries →
      (∃ e, att (retries - 1) = NetResult.fail e ∧
        (fetchJsonWithRetry att dur intervalMs retries clock na).result
          = Except.error (some e)) ∧
      (fetchJsonWithRetry att dur intervalMs retries clock na).attemptsMade = retries ∧
      (fetchJsonWithRetry att dur intervalMs retries clock na).backoffSleeps =
        (List.range retries).map (fun (n : Nat) => intervalMs * ((n : Int) + 1) * 2)) := by
  refine ⟨?_, ?_, ?_⟩
  · simpa using retryGo_attempts_le att dur intervalMs retries 0 none [] [] clock na
  · intro k a hk hok hfail
    have hsucc := retryGo_success att dur intervalMs retries 0 none [] [] clock na k a
      (Nat.zero_le k) (by omega) (fun j _ hj => hfail j hj) hok
    unfold fetchJsonWithRetry
    refine ⟨hsucc.1, hsucc.2.1, ?_⟩
    rw [hsucc.2.2, List.nil_append, Nat.sub_zero, List.range_eq_range']
    rfl
  · intro hfail hpos
    have hall := retryGo_allfail att dur intervalMs retries 0 none [] [] clock na
      (fun j _ hj => hfail j (by omega))
    obtain ⟨e, he⟩ := hfail (retries - 1) (by omega)
    unfold fetchJsonWithRetry
    refine ⟨⟨e, he, ?_⟩, ?_, ?_⟩
    · exact hall.2.2.2 e hpos (by simpa using he)
    · simpa using hall.1
    · rw [hall.2.1, List.nil_append, List.range_eq_range']
      rfl

/-- Attempt oracle of the C6 witness: the first attempt throws, the second
succeeds. -/
def attW : Nat → NetResult Int :=
  fun i => if i = 0 then NetResult.fail "boom" else NetResult.ok 42

theorem fetchJsonWithRetry_witness :
    (fetchJsonWithRetry attW (fun _ => 0) 350 3 0 0).result = Except.ok 42 ∧
    (fetchJsonWithRetry attW (fun _ => 0) 350 3 0 0).attemptsMade = 2 ∧
    (fetchJsonWithRetry attW (fun _ => 0) 350 3 0 0).backoffSleeps =
      (List.range 1).map (fun (n : Nat) => (350 : Int) * ((n : Int) + 1) * 2) :=
  (fetchJsonWithRetry_spec attW (fun _ => 0) 350 3 0 0).2.1 1 42 (by omega)
    (by rfl)
    (fun j hj => ⟨"boom", by
      have hj0 : j = 0 := by omega
      subst hj0
      rfl⟩)

/-- C7: every attempt, including each retry, passes the shared rate gate
before its request is issued: the number of issued requests equals the number
of attempts, the first request is issued at `max clock na` (after waiting out
`max 0 (na - clock)`), and consecutive issue instants are never less than
`intervalMs` apart. -/
theorem rateLimit_gate_spec {α : Type} (att : Nat → NetResult α)
    (dur : Nat → Int) (intervalMs : Int) (retries : Nat) (clock na : Int) :
    (fetchJsonWithRetry att dur intervalMs retries clock na).issueTimes.length
        = (fetchJsonWithRetry att dur intervalMs retries clock na).attemptsMade ∧
    (fetchJsonWithRetry att dur intervalMs retries clock na).issueTimes.head?
        = (if retries = 0 then none else some (max clock na)) ∧
    List.Chain' (fun a b => a + intervalMs ≤ b)
      (fetchJsonWithRetry att dur intervalMs retries clock na).issueTimes := by
  refine ⟨?_, ?_, ?_⟩
  · simpa using retryGo_issue_count att dur intervalMs retries 0 none [] [] clock na
  · obtain ⟨tail, htail, hhead, hzero⟩ :=
      retryGo_issues_decomp att dur intervalMs retries 0 none [] [] clock na
    unfold fetchJsonWithRetry
    rw [htail]
    rcases Nat.eq_zero_or_pos retries with h0 | hpos
    · subst h0
      rw [hzero rfl]
      simp
    · rw [if_neg (by omega)]
      have hfirst : (waitRateLimit intervalMs clock na).1 = max clock na := by
        show clock + max 0 (na - clock) = max clock na
        rcases le_total na clock with h | h
        · rw [max_eq_left (show na - clock ≤ 0 by omega), max_eq_left h]
          omega
        · rw [max_eq_right (show 0 ≤ na - clock by omega), max_eq_right h]
          omega
      rw [List.nil_append, hhead hpos, hfirst]
  · exact retryGo_chain att dur intervalMs retries 0 none [] [] clock na
      List.chain'_nil (by intro last h; cases h)
